import Mathlib

/-!
Shallow embedding of the DNA heart-risk analysis core:
`clean_and_validate_sequence` from `src/app.py` and
`load_disease_markers` / `analyze_sequence` from
`src/utils/nucleotide_analysis.py`.

Strings are modelled as `List Char`; Python's ASCII case mapping,
whitespace set and line terminators (`\n`, `\r\n`, `\r`) are modelled
explicitly.  Risk scores are exact rationals.  The reference-table CSV
file is modelled as an explicit parameter `fs : Option (List MarkerRecord)`
(`some` = parsed file contents, `none` = file missing, triggering the
built-in default table, as in the `except FileNotFoundError` branch).
-/

namespace DnaRisk

/-- ASCII whitespace characters removed by Python `str.strip()`. -/
def isPySpace (c : Char) : Bool :=
  c = ' ' || c = '\t' || c = '\n' || c = '\x0b' || c = '\x0c' || c = '\r'

/-- Replace the line terminators `\r\n` and `\r` by `\n`, so that
splitting on `\n` alone reproduces Python `str.splitlines` on the common
terminators. -/
def normNewlines : List Char → List Char
  | [] => []
  | '\r' :: '\n' :: rest => '\n' :: normNewlines rest
  | '\r' :: rest => '\n' :: normNewlines rest
  | c :: rest => c :: normNewlines rest

/-- Split at `\n`, accumulating the current line in reverse.  A trailing
terminator produces no extra empty line, as in Python. -/
def splitlinesAux : List Char → List Char → List (List Char)
  | [], acc => if acc = [] then [] else [acc.reverse]
  | c :: rest, acc =>
    if c = '\n' then acc.reverse :: splitlinesAux rest []
    else splitlinesAux rest (c :: acc)

/-- Python `str.splitlines()` on the common line terminators. -/
def pySplitlines (s : List Char) : List (List Char) :=
  splitlinesAux (normNewlines s) []

/-- Python `str.strip()`: drop leading and trailing whitespace. -/
def pyStrip (l : List Char) : List Char :=
  ((l.dropWhile isPySpace).reverse.dropWhile isPySpace).reverse

/-- Python `line.startswith(">")`. -/
def startsWithGt (l : List Char) : Bool :=
  match l with
  | c :: _ => c = '>'
  | [] => false

/-- The `cleaned_sequence` of `clean_and_validate_sequence` before the
validation step: drop lines starting with `>` (tested on the raw line),
strip each remaining line, concatenate in order. -/
def cleanedChars (raw : List Char) : List Char :=
  (((pySplitlines raw).filter (fun line => !startsWithGt line)).map pyStrip).flatten

/-- Python `base in "ATCG"` for a single character. -/
def isValidBase (c : Char) : Bool :=
  c = 'A' || c = 'T' || c = 'C' || c = 'G'

/-- The `ValueError` message raised on invalid input. -/
def invalidMsg : String :=
  "Invalid DNA sequence detected! Ensure the sequence contains only A, T, C, and G."

/-- `clean_and_validate_sequence` from `src/app.py`: remove FASTA header
lines, strip and join, validate that every character of the uppercased
result is in `"ATCG"`, and return the uppercased sequence; otherwise
raise `ValueError` (modelled as `Except.error`). -/
def clean_and_validate_sequence (sequence : String) : Except String String :=
  let cleaned := cleanedChars sequence.data
  if cleaned.all (fun base => isValidBase base.toUpper) then
    .ok ⟨cleaned.map Char.toUpper⟩
  else
    .error invalidMsg

/-- One row of the reference marker table. -/
structure MarkerRecord where
  marker : String
  risk : ℚ
  description : String
deriving DecidableEq, Repr

/-- One entry of the `markers_detected` list built by `analyze_sequence`. -/
structure Detection where
  marker : String
  risk : ℚ
  description : String
deriving DecidableEq, Repr

/-- The `risk_summary` dict: `"Detected Markers"` and `"Total Risk Score"`. -/
structure RiskSummary where
  detectedMarkers : ℕ
  totalRiskScore : ℚ
deriving DecidableEq, Repr

/-- The built-in default marker table used by `load_disease_markers` when
the CSV file is absent (`except FileNotFoundError` branch). -/
def defaultMarkers : List MarkerRecord :=
  [⟨"ATCGT", 0.8, "Marker linked to cholesterol regulation"⟩,
   ⟨"GCTAG", 0.6, "Gene sequence associated with blood pressure"⟩,
   ⟨"TTAGC", 0.7, "Known mutation affecting heart function"⟩,
   ⟨"CCTGA", 0.9, "Potential risk for artery blockage"⟩,
   ⟨"AGGCT", 0.5, "Linked to irregular heartbeat"⟩]

/-- `load_disease_markers`: read the CSV file if present, otherwise fall
back to the built-in default table.  The filesystem is an explicit
parameter: `some df` models a readable file parsed to `df`, `none` models
`FileNotFoundError`. -/
def load_disease_markers (fs : Option (List MarkerRecord)) : List MarkerRecord :=
  match fs with
  | some markers_df => markers_df
  | none => defaultMarkers

/-- Python substring containment `needle in haystack`. -/
def pyContains : List Char → List Char → Bool
  | [], needle => needle.isEmpty
  | c :: rest, needle => needle.isPrefixOf (c :: rest) || pyContains rest needle

/-- The marker-scanning loop of `analyze_sequence`: for each table row in
order, if the marker occurs in the sequence, record a detection and add
its risk to the running total. -/
def scanMarkers (sequence : List Char) : List MarkerRecord → List Detection × ℚ
  | [] => ([], 0)
  | row :: rest =>
    let tail := scanMarkers sequence rest
    if pyContains sequence row.marker.data then
      (⟨row.marker, row.risk, row.description⟩ :: tail.1, row.risk + tail.2)
    else tail

/-- `analyze_sequence` from `src/utils/nucleotide_analysis.py`: load the
marker table, defensively re-validate the sequence (case-sensitively,
returning an empty result on failure), scan for markers, filter by
`risk >= user_threshold`, and build the summary whose count is of the
filtered list but whose total risk sums over all matches. -/
def analyze_sequence (fs : Option (List MarkerRecord)) (sequence : String)
    (user_threshold : ℚ) : List Detection × RiskSummary :=
  let markers_df := load_disease_markers fs
  if sequence.data.all isValidBase then
    let scanned := scanMarkers sequence.data markers_df
    let filtered := scanned.1.filter (fun m => decide (user_threshold ≤ m.risk))
    (filtered, ⟨filtered.length, scanned.2⟩)
  else
    ([], ⟨0, 0⟩)

/-! ### Helper lemmas -/

/-- The eight letters accepted case-insensitively by the validator. -/
def letterBases : List Char := ['A', 'T', 'C', 'G', 'a', 't', 'c', 'g']

lemma mem8_toUpper_valid {c : Char} (h : c ∈ letterBases) :
    isValidBase c.toUpper = true := by
  simp only [letterBases, List.mem_cons, List.not_mem_nil, or_false] at h
  rcases h with rfl | rfl | rfl | rfl | rfl | rfl | rfl | rfl <;> decide

lemma mem8_facts {c : Char} (h : c ∈ letterBases) :
    c ≠ '\n' ∧ c ≠ '\r' ∧ isPySpace c = false ∧ c ≠ '>' := by
  simp only [letterBases, List.mem_cons, List.not_mem_nil, or_false] at h
  rcases h with rfl | rfl | rfl | rfl | rfl | rfl | rfl | rfl <;>
    exact ⟨by decide, by decide, by decide, by decide⟩

lemma valid_mem8 {c : Char} (h : isValidBase c = true) : c ∈ letterBases := by
  simp only [isValidBase, Bool.or_eq_true, decide_eq_true_eq] at h
  rcases h with ((rfl | rfl) | rfl) | rfl <;> decide

lemma toUpper_of_valid {c : Char} (h : isValidBase c = true) : c.toUpper = c := by
  simp only [isValidBase, Bool.or_eq_true, decide_eq_true_eq] at h
  rcases h with ((rfl | rfl) | rfl) | rfl <;> decide

lemma normNewlines_eq_self {l : List Char} (h : ∀ c ∈ l, c ≠ '\n' ∧ c ≠ '\r') :
    normNewlines l = l := by
  induction l with
  | nil => rfl
  | cons c rest ih =>
    have hc := h c (List.mem_cons_self c rest)
    have hr : ∀ x ∈ rest, x ≠ '\n' ∧ x ≠ '\r' :=
      fun x hx => h x (List.mem_cons_of_mem c hx)
    cases rest with
    | nil => simp [normNewlines, hc.2]
    | cons d t => simp [normNewlines, hc.2, ih hr]

lemma splitlinesAux_no_nl (l : List Char) :
    ∀ acc : List Char, (∀ c ∈ l, c ≠ '\n') →
      splitlinesAux l acc =
        if acc.reverse ++ l = [] then [] else [acc.reverse ++ l] := by
  induction l with
  | nil => intro acc _; cases acc <;> simp [splitlinesAux]
  | cons c rest ih =>
    intro acc h
    have hc : c ≠ '\n' := h c (List.mem_cons_self c rest)
    have hr : ∀ x ∈ rest, x ≠ '\n' := fun x hx => h x (List.mem_cons_of_mem c hx)
    simp only [splitlinesAux, if_neg hc]
    rw [ih (c :: acc) hr]
    simp

lemma dropWhile_eq_self_of {p : Char → Bool} {l : List Char}
    (h : ∀ c ∈ l, p c = false) : l.dropWhile p = l := by
  cases l with
  | nil => rfl
  | cons a t =>
    rw [List.dropWhile_cons, if_neg]
    simp [h a (List.mem_cons_self a t)]

lemma pyStrip_no_space {l : List Char} (h : ∀ c ∈ l, isPySpace c = false) :
    pyStrip l = l := by
  unfold pyStrip
  rw [dropWhile_eq_self_of h,
    dropWhile_eq_self_of (fun c hc => h c (List.mem_reverse.mp hc)),
    List.reverse_reverse]

lemma cleanedChars_of_letters {l : List Char} (h : ∀ c ∈ l, c ∈ letterBases) :
    cleanedChars l = l := by
  have hnn : normNewlines l = l :=
    normNewlines_eq_self fun c hc => ⟨(mem8_facts (h c hc)).1, (mem8_facts (h c hc)).2.1⟩
  unfold cleanedChars pySplitlines
  rw [hnn, splitlinesAux_no_nl l [] (fun c hc => (mem8_facts (h c hc)).1)]
  cases l with
  | nil => simp
  | cons c rest =>
    have hgt : c ≠ '>' := (mem8_facts (h c (List.mem_cons_self c rest))).2.2.2
    have hsp : ∀ x ∈ c :: rest, isPySpace x = false :=
      fun x hx => (mem8_facts (h x hx)).2.2.1
    simp [startsWithGt, hgt, pyStrip_no_space hsp]

lemma clean_of_letters {l : List Char} (h : ∀ c ∈ l, c ∈ letterBases) :
    clean_and_validate_sequence ⟨l⟩ = .ok ⟨l.map Char.toUpper⟩ := by
  unfold clean_and_validate_sequence
  have hd : (String.mk l).data = l := rfl
  rw [hd, cleanedChars_of_letters h, if_pos]
  exact List.all_eq_true.mpr fun c hc => mem8_toUpper_valid (h c hc)

lemma analyze_invalid_eq (fs : Option (List MarkerRecord)) (sequence : String)
    (user_threshold : ℚ) (h : sequence.data.all isValidBase = false) :
    analyze_sequence fs sequence user_threshold = ([], ⟨0, 0⟩) := by
  simp [analyze_sequence, h]

lemma scanMarkers_eq (seq : List Char) (markers : List MarkerRecord) :
    scanMarkers seq markers =
      ((markers.filter (fun row => pyContains seq row.marker.data)).map
          (fun row => (⟨row.marker, row.risk, row.description⟩ : Detection)),
        ((markers.filter (fun row => pyContains seq row.marker.data)).map
          (fun row => row.risk)).sum) := by
  induction markers with
  | nil => simp [scanMarkers]
  | cons row rest ih =>
    simp only [scanMarkers, ih, List.filter_cons]
    by_cases h : pyContains seq row.marker.data <;> simp [h]

lemma mem_dropWhile_of {p : Char → Bool} {x : Char} {l : List Char}
    (hx : x ∈ l) (hpx : p x = false) : x ∈ l.dropWhile p := by
  induction l with
  | nil => cases hx
  | cons a t ih =>
    rw [List.dropWhile_cons]
    by_cases ha : p a = true
    · rw [if_pos ha]
      rcases List.mem_cons.mp hx with rfl | hmem
      · rw [hpx] at ha; cases ha
      · exact ih hmem
    · rw [if_neg ha]; exact hx

lemma dropWhile_append_all {p : Char → Bool} {ws t : List Char} {y : Char}
    (hws : ∀ c ∈ ws, p c = true) (hy : p y = false) :
    (ws ++ y :: t).dropWhile p = y :: t := by
  induction ws with
  | nil => rw [List.nil_append, List.dropWhile_cons, if_neg (by simp [hy])]
  | cons a ws' ih =>
    rw [List.cons_append, List.dropWhile_cons,
      if_pos (hws a (List.mem_cons_self a ws')),
      ih (fun c hc => hws c (List.mem_cons_of_mem a hc))]

lemma gt_mem_pyStrip {ws rest : List Char} (hws : ∀ c ∈ ws, isPySpace c = true) :
    '>' ∈ pyStrip (ws ++ '>' :: rest) := by
  unfold pyStrip
  rw [dropWhile_append_all hws (by decide), List.mem_reverse]
  exact mem_dropWhile_of (List.mem_reverse.mpr (List.mem_cons_self '>' rest)) (by decide)

/-! ### Claim theorems -/

/-- Claim C1: for every alphabet-valid sequence and reference table, the
total risk score returned by `analyze_sequence` is the sum of `risk` over
all marker rows whose marker occurs as a substring of the sequence; it is
the same at any two thresholds, while the detected-markers count equals
the length of the threshold-filtered detection list. -/
theorem analyze_totalRisk_characterisation (fs : Option (List MarkerRecord))
    (sequence : String) (t t' : ℚ)
    (h : sequence.data.all isValidBase = true) :
    (analyze_sequence fs sequence t).2.totalRiskScore =
      (((load_disease_markers fs).filter
          (fun row => pyContains sequence.data row.marker.data)).map
        (fun row => row.risk)).sum
    ∧ (analyze_sequence fs sequence t).2.totalRiskScore =
        (analyze_sequence fs sequence t').2.totalRiskScore
    ∧ (analyze_sequence fs sequence t).2.detectedMarkers =
        (analyze_sequence fs sequence t).1.length := by
  simp [analyze_sequence, h, scanMarkers_eq]

theorem analyze_totalRisk_characterisation_witness :
    ("AGGCTACCTGA".data.all isValidBase = true)
    ∧ ((analyze_sequence none "AGGCTACCTGA" 0.5).2.totalRiskScore =
        (((load_disease_markers none).filter
            (fun row => pyContains "AGGCTACCTGA".data row.marker.data)).map
          (fun row => row.risk)).sum
      ∧ (analyze_sequence none "AGGCTACCTGA" 0.5).2.totalRiskScore =
          (analyze_sequence none "AGGCTACCTGA" 1).2.totalRiskScore
      ∧ (analyze_sequence none "AGGCTACCTGA" 0.5).2.detectedMarkers =
          (analyze_sequence none "AGGCTACCTGA" 0.5).1.length) :=
  ⟨by decide, analyze_totalRisk_characterisation none "AGGCTACCTGA" 0.5 1 (by decide)⟩

/-- Claim C2: `analyze_sequence` is a pure, deterministic function of the
loaded reference table, the sequence and the threshold: two filesystem
states that load to the same table give identical results, so the result
depends on nothing else and no input is mutated. -/
theorem analyze_sequence_pure (fs fs' : Option (List MarkerRecord))
    (sequence : String) (user_threshold : ℚ)
    (h : load_disease_markers fs = load_disease_markers fs') :
    analyze_sequence fs sequence user_threshold =
      analyze_sequence fs' sequence user_threshold := by
  simp only [analyze_sequence, h]

theorem analyze_sequence_pure_witness :
    load_disease_markers none = load_disease_markers (some defaultMarkers)
    ∧ analyze_sequence none "ATCGT" 0.5 =
        analyze_sequence (some defaultMarkers) "ATCGT" 0.5 :=
  ⟨rfl, analyze_sequence_pure none (some defaultMarkers) "ATCGT" 0.5 rfl⟩

/-- Claim C3: `clean_and_validate_sequence` raises (returns `.error`) if
and only if the cleaned text (headers discarded, lines stripped and
joined) contains a character that is not in `{A,T,C,G}` after uppercasing,
and the only error value it ever produces is the invalid-bases message. -/
theorem clean_error_iff (sequence : String) :
    (clean_and_validate_sequence sequence = .error invalidMsg ↔
      ∃ c ∈ cleanedChars sequence.data, isValidBase c.toUpper = false)
    ∧ ∀ msg, clean_and_validate_sequence sequence = .error msg → msg = invalidMsg := by
  unfold clean_and_validate_sequence
  by_cases h :
      (cleanedChars sequence.data).all (fun base => isValidBase base.toUpper) = true
  · rw [if_pos h]
    constructor
    · constructor
      · intro h1; exact absurd h1 (by simp)
      · rintro ⟨c, hc, hf⟩
        rw [List.all_eq_true.mp h c hc] at hf
        exact absurd hf (by decide)
    · intro msg hmsg; exact absurd hmsg (by simp)
  · rw [if_neg h]
    constructor
    · constructor
      · intro _
        by_contra hne
        push_neg at hne
        exact h (List.all_eq_true.mpr fun c hc => eq_true_of_ne_false (hne c hc))
      · intro _; rfl
    · intro msg hmsg
      cases hmsg
      rfl

theorem clean_error_iff_witness :
    clean_and_validate_sequence "AXT" = .error invalidMsg :=
  (clean_error_iff "AXT").1.mpr ⟨'X', by decide, by decide⟩

/-- Claim C4: on any sequence containing a character outside `{A,T,C,G}`,
`analyze_sequence` does not raise: it returns an empty detection list and
a zero summary, for any reference table and threshold. -/
theorem analyze_fail_soft (fs : Option (List MarkerRecord)) (sequence : String)
    (user_threshold : ℚ) (h : ∃ c ∈ sequence.data, isValidBase c = false) :
    analyze_sequence fs sequence user_threshold = ([], ⟨0, 0⟩) := by
  apply analyze_invalid_eq
  obtain ⟨c, hc, hf⟩ := h
  cases hall : sequence.data.all isValidBase
  · rfl
  · rw [List.all_eq_true.mp hall c hc] at hf
    cases hf

theorem analyze_fail_soft_witness :
    (∃ c ∈ "AXT".data, isValidBase c = false)
    ∧ analyze_sequence none "AXT" 0.5 = ([], ⟨0, 0⟩) :=
  ⟨⟨'X', by decide, by decide⟩, analyze_fail_soft none "AXT" 0.5 ⟨'X', by decide, by decide⟩⟩

/-- Claim C5: for a fixed alphabet-valid sequence and table, raising the
threshold shrinks the filtered detection list: every detection returned
at the larger threshold also appears at the smaller one, and the
detected-markers count is non-increasing. -/
theorem analyze_threshold_monotone (fs : Option (List MarkerRecord))
    (sequence : String) (t1 t2 : ℚ)
    (hseq : sequence.data.all isValidBase = true) (ht : t1 < t2) :
    (∀ d ∈ (analyze_sequence fs sequence t2).1,
        d ∈ (analyze_sequence fs sequence t1).1)
    ∧ (analyze_sequence fs sequence t2).2.detectedMarkers ≤
        (analyze_sequence fs sequence t1).2.detectedMarkers := by
  have hsub :
      List.Sublist
        ((scanMarkers sequence.data (load_disease_markers fs)).1.filter
          (fun m => decide (t2 ≤ m.risk)))
        ((scanMarkers sequence.data (load_disease_markers fs)).1.filter
          (fun m => decide (t1 ≤ m.risk))) :=
    List.monotone_filter_right _ fun a ha =>
      decide_eq_true (le_trans (le_of_lt ht) (of_decide_eq_true ha))
  constructor
  · intro d hd
    simp only [analyze_sequence, hseq, if_pos] at hd ⊢
    exact hsub.subset hd
  · simp only [analyze_sequence, hseq, if_pos]
    exact hsub.length_le

theorem analyze_threshold_monotone_witness :
    ("AGGCTACCTGA".data.all isValidBase = true) ∧ ((0.5 : ℚ) < 1)
    ∧ ((∀ d ∈ (analyze_sequence none "AGGCTACCTGA" 1).1,
          d ∈ (analyze_sequence none "AGGCTACCTGA" 0.5).1)
      ∧ (analyze_sequence none "AGGCTACCTGA" 1).2.detectedMarkers ≤
          (analyze_sequence none "AGGCTACCTGA" 0.5).2.detectedMarkers) :=
  ⟨by decide, by norm_num,
    analyze_threshold_monotone none "AGGCTACCTGA" 0.5 1 (by decide) (by norm_num)⟩

/-- Claim C6: analyzing `"AGGCTACCTGA"` against the built-in default
five-entry table at threshold `0.5` yields exactly the two detections
`CCTGA` (risk 0.9) and `AGGCT` (risk 0.5, kept since the filter uses
`risk >= threshold`), a detected count of 2 and a total risk score of
`0.5 + 0.9 = 1.4`. -/
theorem analyze_default_example :
    analyze_sequence none "AGGCTACCTGA" 0.5 =
      ([⟨"CCTGA", 0.9, "Potential risk for artery blockage"⟩,
        ⟨"AGGCT", 0.5, "Linked to irregular heartbeat"⟩], ⟨2, 1.4⟩)
    ∧ (0.5 + 0.9 : ℚ) = 1.4 := by
  constructor
  · with_unfolding_all exact of_decide_eq_true rfl
  · norm_num

/-- Claim C7: when every character of the cleaned text (headers discarded,
lines stripped and joined) is one of `{A,T,C,G}` in either case, the
validator succeeds and returns the uppercased cleaned text, whose length
equals that of the cleaned text; and an input consisting solely of
`>`-prefixed lines yields the empty string. -/
theorem clean_valid_succeeds (raw : String) :
    ((∀ c ∈ cleanedChars raw.data, c ∈ letterBases) →
      clean_and_validate_sequence raw = .ok ⟨(cleanedChars raw.data).map Char.toUpper⟩
      ∧ ((cleanedChars raw.data).map Char.toUpper).length =
          (cleanedChars raw.data).length)
    ∧ ((∀ line ∈ pySplitlines raw.data, startsWithGt line = true) →
        clean_and_validate_sequence raw = .ok "") := by
  constructor
  · intro h
    have hall :
        (cleanedChars raw.data).all (fun base => isValidBase base.toUpper) = true :=
      List.all_eq_true.mpr fun c hc => mem8_toUpper_valid (h c hc)
    exact ⟨by rw [clean_and_validate_sequence, if_pos hall], List.length_map _ _⟩
  · intro h
    have hnil : cleanedChars raw.data = [] := by
      unfold cleanedChars
      rw [List.filter_eq_nil_iff.mpr fun l hl => by simp [h l hl]]
      rfl
    rw [clean_and_validate_sequence, hnil]
    rfl

theorem clean_valid_succeeds_witness :
    (clean_and_validate_sequence "at\ncg" =
        .ok ⟨(cleanedChars "at\ncg".data).map Char.toUpper⟩
      ∧ ((cleanedChars "at\ncg".data).map Char.toUpper).length =
          (cleanedChars "at\ncg".data).length)
    ∧ clean_and_validate_sequence ">a\n>b" = .ok "" :=
  ⟨(clean_valid_succeeds "at\ncg").1 (by decide),
    (clean_valid_succeeds ">a\n>b").2 (by decide)⟩

/-- Claim C8: the validator is idempotent: whenever it succeeds, running
it again on its own output returns that output unchanged. -/
theorem clean_idempotent (x s : String)
    (h : clean_and_validate_sequence x = .ok s) :
    clean_and_validate_sequence s = .ok s := by
  rw [clean_and_validate_sequence] at h
  by_cases hall :
      (cleanedChars x.data).all (fun base => isValidBase base.toUpper) = true
  · rw [if_pos hall] at h
    have hs : s = ⟨(cleanedChars x.data).map Char.toUpper⟩ := by
      cases h; rfl
    subst hs
    have hv : ∀ c ∈ (cleanedChars x.data).map Char.toUpper, isValidBase c = true := by
      intro c hc
      obtain ⟨a, ha, rfl⟩ := List.mem_map.mp hc
      exact List.all_eq_true.mp hall a ha
    have hmap :
        ((cleanedChars x.data).map Char.toUpper).map Char.toUpper =
          (cleanedChars x.data).map Char.toUpper := by
      rw [List.map_congr_left fun a ha => toUpper_of_valid (hv a ha)]
      simp
    have := clean_of_letters fun c hc => valid_mem8 (hv c hc)
    rw [hmap] at this
    exact this
  · rw [if_neg hall] at h
    exact absurd h (by simp)

theorem clean_idempotent_witness :
    clean_and_validate_sequence "AT" = .ok "AT" :=
  clean_idempotent "at" "AT" (by rfl)

/-- Claim C9: the defensive alphabet check in `analyze_sequence` is
case-sensitive: a sequence made of valid letters that includes at least
one lowercase base takes the fail-soft path and yields an empty result
with a zero summary, even though `clean_and_validate_sequence` accepts
the very same characters case-insensitively. -/
theorem analyze_case_sensitive (fs : Option (List MarkerRecord))
    (sequence : String) (user_threshold : ℚ)
    (hall : ∀ c ∈ sequence.data, c ∈ letterBases)
    (hlow : ∃ c ∈ sequence.data, c ∈ (['a', 't', 'c', 'g'] : List Char)) :
    analyze_sequence fs sequence user_threshold = ([], ⟨0, 0⟩)
    ∧ clean_and_validate_sequence sequence = .ok ⟨sequence.data.map Char.toUpper⟩ := by
  constructor
  · apply analyze_invalid_eq
    obtain ⟨c, hc, hm⟩ := hlow
    have hf : isValidBase c = false := by
      simp only [List.mem_cons, List.not_mem_nil, or_false] at hm
      rcases hm with rfl | rfl | rfl | rfl <;> decide
    cases hv : sequence.data.all isValidBase
    · rfl
    · rw [List.all_eq_true.mp hv c hc] at hf
      exact absurd hf (by decide)
  · exact clean_of_letters hall

theorem analyze_case_sensitive_witness :
    analyze_sequence none "aT" 0.5 = ([], ⟨0, 0⟩)
    ∧ clean_and_validate_sequence "aT" = .ok ⟨"aT".data.map Char.toUpper⟩ :=
  analyze_case_sensitive none "aT" 0.5 (by decide) ⟨'a', by decide, by decide⟩

/-- Claim C10: a line that begins with whitespace followed by `>` is not
treated as a header: it survives the header filter, its stripped form
(still containing the `>`) is concatenated into the cleaned sequence,
and that `>` makes the validator return the invalid-sequence error. -/
theorem header_after_whitespace_kept (raw : String) (ws rest : List Char)
    (hmem : (ws ++ '>' :: rest) ∈ pySplitlines raw.data)
    (hws : ws ≠ []) (hsp : ∀ c ∈ ws, isPySpace c = true) :
    (ws ++ '>' :: rest) ∈
        (pySplitlines raw.data).filter (fun line => !startsWithGt line)
    ∧ '>' ∈ cleanedChars raw.data
    ∧ clean_and_validate_sequence raw = .error invalidMsg := by
  obtain ⟨w, ws', rfl⟩ : ∃ w ws'', ws = w :: ws'' := by
    cases ws with
    | nil => exact absurd rfl hws
    | cons a t => exact ⟨a, t, rfl⟩
  have hw : isPySpace w = true := hsp w (List.mem_cons_self w ws')
  have hne : w ≠ '>' := by
    intro hEq
    rw [hEq] at hw
    exact absurd hw (by decide)
  have hkept : ((w :: ws') ++ '>' :: rest) ∈
      (pySplitlines raw.data).filter (fun line => !startsWithGt line) :=
    List.mem_filter.mpr ⟨hmem, by simp [startsWithGt, hne]⟩
  have hgt : '>' ∈ cleanedChars raw.data := by
    unfold cleanedChars
    exact List.mem_flatten_of_mem (List.mem_map_of_mem pyStrip hkept)
      (gt_mem_pyStrip hsp)
  refine ⟨hkept, hgt, ?_⟩
  rw [clean_and_validate_sequence, if_neg]
  intro habs
  have := List.all_eq_true.mp habs '>' hgt
  exact absurd this (by decide)

theorem header_after_whitespace_kept_witness :
    (([' '] ++ '>' :: ['x']) ∈
        (pySplitlines " >x".data).filter (fun line => !startsWithGt line))
    ∧ '>' ∈ cleanedChars " >x".data
    ∧ clean_and_validate_sequence " >x" = .error invalidMsg :=
  header_after_whitespace_kept " >x" [' '] ['x'] (by decide) (by decide) (by decide)

end DnaRisk
